import Mathlib

/-!
# Verification of the Rule Activation Engine

A shallow embedding of `src/components/utils/RuleActivationEngine.ts` (the
rule activation engine of an AI-driven text RPG front end), together with
theorems settling the specification claims about it.

Modelling conventions:
* TypeScript optional fields become `Option`; JavaScript falsy-default
  expressions `a || b` become the `jsOr*` helpers below (note `0`, `""`,
  `false` and `undefined` are all falsy, so `some 0` falls through to the
  default exactly as in the source).
* `Math.random()` draws are supplied by an explicit stream `rand : Nat → Rat`
  of values; a counter threads through the pass and advances exactly when the
  source would call `Math.random()` (probability strictly between 0 and 100,
  reached only after the activation-limit check passes).
* In-place mutation of rule objects and of the engine's `activationHistory`
  map is made explicit: `processRules` returns, besides the activation
  result, the rule pool with the in-place metadata writes applied and the
  updated history map (modelled as a function `String → List Nat`, empty
  lists standing for absent keys exactly as `map.get(id) || []` does).
  Rules are keyed by their position in the input pool, which models
  JavaScript object identity for pools of distinct rule objects.
* `console.log` calls and the per-rule `try/catch` (nothing in the embedded
  pure code can throw) are dropped.
* JavaScript regex `\b` word boundaries (`\w` = ASCII alphanumeric or `_`)
  are modelled directly as literal-occurrence-with-boundaries, which is what
  the source builds: the keyword is regex-escaped so it can only match
  literally.
-/

/-- The `RuleLogic` enum from `types.ts`, as used by the engine. -/
inductive RuleLogic where
  | AND_ANY
  | AND_ALL
  | NOT_ALL
  | NOT_ANY
deriving DecidableEq, Repr

/-- Reverse enum lookup `RuleLogic[logic]` used in the fallthrough reason. -/
def logicName : RuleLogic → String
  | .AND_ANY => "AND_ANY"
  | .AND_ALL => "AND_ALL"
  | .NOT_ALL => "NOT_ALL"
  | .NOT_ANY => "NOT_ANY"

/-- A game-history entry: a role tag (`"user"` or `"model"`) and the texts of
its parts (`entry.parts.map(part => part.text)`). -/
structure GameHistoryEntry where
  role : String
  parts : List String
deriving DecidableEq, Repr

/-- A memory entry as scanned by the engine. -/
structure Memory where
  text : String
  pinned : Bool
  importance : Option Nat
deriving DecidableEq, Repr

/-- The fields of `CustomRule` read or written by the engine. -/
structure CustomRule where
  id : String
  title : Option String
  keywords : Option (List String)
  secondaryKeywords : Option (List String)
  logic : Option RuleLogic
  alwaysActive : Bool
  caseSensitive : Option Bool
  matchWholeWords : Option Bool
  scanDepth : Option Nat
  scanPlayerInput : Option Bool
  scanAIOutput : Option Bool
  scanMemories : Option Bool
  tokenWeight : Option Int
  probability : Option Rat
  maxActivationsPerTurn : Option Nat
  order : Option Int
  isActive : Bool
  content : String
  lastActivated : Option Nat
  activationCount : Option Nat
deriving DecidableEq, Repr

/-- The `ActivationContext` interface.  Absent `playerInput`/`aiResponse`
strings are the empty string (both are falsy in the source's guards); the
unused `entities` field is omitted. -/
structure ActivationContext where
  playerInput : String
  aiResponse : String
  gameHistory : List GameHistoryEntry
  memories : List Memory
  currentTurn : Option Nat
  scanDepth : Option Nat
  tokenBudget : Option Int
  caseSensitive : Option Bool
  matchWholeWords : Option Bool
deriving DecidableEq, Repr

/-- Result of `checkKeywordMatch`.  The source names the first field
`matches`, which is a reserved word in Lean. -/
structure KeywordMatchResult where
  matchesAny : Bool
  matchedKeywords : List String
deriving DecidableEq, Repr

/-- Result of `evaluateRuleLogic`. -/
structure LogicResult where
  activated : Bool
  reason : String
  matchedKeywords : List String
deriving DecidableEq, Repr

/-- The `ActivatedRule` interface. -/
structure ActivatedRule where
  rule : CustomRule
  activationReason : String
  matchedKeywords : List String
  tokenCost : Int
  priority : Int
deriving DecidableEq, Repr

/-- The `ActivationResult` interface. -/
structure ActivationResult where
  activatedRules : List ActivatedRule
  totalTokens : Int
  budgetExceeded : Bool
  skippedRules : List CustomRule
deriving DecidableEq, Repr

/-! ## JavaScript falsy-default helpers -/

/-- JS `a || d` for an optional number: `undefined` and `0` fall through. -/
def jsOrNat : Option Nat → Nat → Nat
  | some n, d => if n = 0 then d else n
  | none, d => d

/-- JS `a || d` for an optional integer: `undefined` and `0` fall through. -/
def jsOrInt : Option Int → Int → Int
  | some n, d => if n = 0 then d else n
  | none, d => d

/-- JS `a || b` on `boolean | undefined` values: a truthy left operand wins,
otherwise the right operand is returned unchanged. -/
def jsOrBoolOpt : Option Bool → Option Bool → Option Bool
  | some true, _ => some true
  | some false, b => b
  | none, b => b

/-- JS `a || d` for an optional string: `undefined` and `""` fall through. -/
def jsOrStr : Option String → String → String
  | some s, d => if s = "" then d else s
  | none, d => d

/-! ## Token estimation and keyword matching -/

/-- JS `text.toLowerCase()` (character-wise; kernel-computable rendering of
`String.toLower`). -/
def jsToLower (s : String) : String :=
  ⟨s.data.map Char.toLower⟩

/-- JS `text.trim()`: strip leading and trailing whitespace
(kernel-computable rendering of `String.trim`). -/
def jsTrim (s : String) : String :=
  ⟨(((s.data.dropWhile Char.isWhitespace).reverse.dropWhile
      Char.isWhitespace).reverse)⟩

/-- `estimateTokens`: 0 for empty text, else `ceil(length / 4)`. -/
def estimateTokens (text : String) : Int :=
  if text = "" then 0 else ((text.length + 3) / 4 : Nat)

/-- JS regex `\w`: ASCII letters, digits, `_` (the source's regexes are not
Unicode-aware). -/
def isWordChar (c : Char) : Bool :=
  c.isAlphanum || c == '_'

/-- Whether the character at index `i` (if any) is a word character. -/
def wordAt (t : List Char) (i : Nat) : Bool :=
  match t.get? i with
  | some c => isWordChar c
  | none => false

/-- JS regex `\b` at position `i` of the haystack: exactly one of the two
neighbouring characters is a word character (string edges are non-word). -/
def boundaryAt (t : List Char) (i : Nat) : Bool :=
  (if i = 0 then false else wordAt t (i - 1)) != wordAt t i

/-- Substring occurrence at a given index. -/
def occursAt (t k : List Char) (i : Nat) : Bool :=
  (t.drop i).take k.length == k

/-- `searchText.includes(searchKeyword)`. -/
def strContains (text kw : String) : Bool :=
  (List.range (text.data.length + 1)).any fun i => occursAt text.data kw.data i

/-- `new RegExp("\\b" + escapeRegex(kw) + "\\b").test(text)`: the escaped
keyword matches only literally, flanked by `\b` boundaries. -/
def wholeWordTest (text kw : String) : Bool :=
  (List.range (text.data.length + 1)).any fun i =>
    occursAt text.data kw.data i && boundaryAt text.data i &&
      boundaryAt text.data (i + kw.data.length)

/-- `checkKeywordMatch`: which keywords of the list occur in the text, under
the given case-sensitivity and whole-word settings. -/
def checkKeywordMatch (text : String) (keywords : List String)
    (caseSensitive matchWholeWords : Bool) : KeywordMatchResult :=
  if keywords.isEmpty then ⟨false, []⟩
  else
    let searchText := if caseSensitive then text else jsToLower text
    let matched := keywords.foldl (fun acc kw =>
      if jsTrim kw = "" then acc
      else
        let searchKw := if caseSensitive then kw else jsToLower kw
        if matchWholeWords then
          if wholeWordTest searchText searchKw then acc ++ [kw] else acc
        else
          if strContains searchText searchKw then acc ++ [kw] else acc) []
    ⟨!matched.isEmpty, matched⟩

/-! ## Rule logic evaluation -/

/-- `evaluateRuleLogic`: decide activation from the matched primary and
secondary keyword lists (the `allText` argument is unused in the source as
well). -/
def evaluateRuleLogic (rule : CustomRule)
    (primaryMatches secondaryMatches : List String) (allText : String) :
    LogicResult :=
  let logic := rule.logic.getD RuleLogic.AND_ANY
  let hasKeywords := !(rule.keywords.getD []).isEmpty
  let hasSecondaryKeywords := !(rule.secondaryKeywords.getD []).isEmpty
  if rule.alwaysActive then
    ⟨true, "Always active (constant rule)", []⟩
  else if !hasKeywords && !hasSecondaryKeywords then
    ⟨false, "No keywords defined - rule requires keywords to activate or alwaysActive flag", []⟩
  else
    let allMatched := primaryMatches ++ secondaryMatches
    let fallback : LogicResult :=
      ⟨false, "Logic " ++ logicName logic ++ " not satisfied", allMatched⟩
    match logic with
    | .AND_ANY =>
        if primaryMatches.length > 0 || secondaryMatches.length > 0 then
          ⟨true, "AND_ANY: Matched " ++ toString allMatched.length ++ " keywords",
            allMatched⟩
        else fallback
    | .AND_ALL =>
        let primaryRequired := (rule.keywords.getD []).length
        let secondaryRequired := (rule.secondaryKeywords.getD []).length
        if primaryMatches.length = primaryRequired &&
            secondaryMatches.length = secondaryRequired then
          ⟨true, "AND_ALL: All " ++ toString (primaryRequired + secondaryRequired) ++
            " keywords matched", allMatched⟩
        else fallback
    | .NOT_ALL =>
        let totalRequired :=
          (rule.keywords.getD []).length + (rule.secondaryKeywords.getD []).length
        if allMatched.length < totalRequired && allMatched.length > 0 then
          ⟨true, "NOT_ALL: " ++ toString allMatched.length ++ "/" ++
            toString totalRequired ++ " keywords matched", allMatched⟩
        else fallback
    | .NOT_ANY =>
        if allMatched.length = 0 then
          ⟨true, "NOT_ANY: No keywords found", []⟩
        else fallback

/-! ## Probability and per-turn limits -/

/-- `checkProbability`, with the would-be `Math.random()` value passed in as
`draw` (only consulted when `0 < probability < 100`). -/
def checkProbability (rule : CustomRule) (draw : Rat) : Bool :=
  match rule.probability with
  | none => true
  | some p => if 100 ≤ p then true else if p ≤ 0 then false else draw * 100 < p

/-- Whether evaluating `checkProbability` for this rule calls
`Math.random()`. -/
def consumesDraw (rule : CustomRule) : Bool :=
  match rule.probability with
  | none => false
  | some p => !(100 ≤ p : Bool) && !(p ≤ 0 : Bool)

/-- `checkActivationLimits`: pass when no positive cap is set, else compare
this turn's activation count from the history against the cap. -/
def checkActivationLimits (rule : CustomRule) (currentTurn : Nat)
    (hist : String → List Nat) : Bool :=
  let cap := rule.maxActivationsPerTurn.getD 0
  if cap = 0 then true
  else ((hist rule.id).filter (fun t => t == currentTurn)).length < cap

/-! ## Scan-text collection -/

/-- `entry.parts.map(part => part.text).join(' ')`. -/
def entryText (e : GameHistoryEntry) : String :=
  String.intercalate " " e.parts

/-- `arr.slice(-n)` for `n ≥ 1`: the last `n` elements. -/
def takeLast (n : Nat) (l : List α) : List α :=
  l.drop (l.length - n)

/-- The memory filter `!m.pinned || m.importance && m.importance > 70`. -/
def memoryKept (m : Memory) : Bool :=
  !m.pinned || decide (70 < jsOrNat m.importance 0)

/-- `collectScanText`: concatenate, in source order, the enabled text
sources, then trim. -/
def collectScanText (rule : CustomRule) (ctx : ActivationContext) : String :=
  let depth := jsOrNat rule.scanDepth (jsOrNat ctx.scanDepth 5)
  let s1 :=
    if (rule.scanPlayerInput != some false) && (ctx.playerInput != "") then
      "" ++ ctx.playerInput ++ " "
    else ""
  let s2 :=
    if (rule.scanAIOutput != some false) && (ctx.aiResponse != "") then
      s1 ++ ctx.aiResponse ++ " "
    else s1
  let s3 :=
    if ctx.gameHistory.isEmpty then s2
    else
      let s3a :=
        if rule.scanAIOutput != some false then
          (takeLast 3 (ctx.gameHistory.filter (fun e => e.role == "model"))).foldl
            (fun acc e => acc ++ entryText e ++ " ") s2
        else s2
      if rule.scanPlayerInput != some false then
        (takeLast depth ctx.gameHistory).foldl
          (fun acc e => if e.role == "user" then acc ++ entryText e ++ " " else acc)
          s3a
      else s3a
  let s4 :=
    if rule.scanMemories != some false then
      (takeLast depth (ctx.memories.filter memoryKept)).foldl
        (fun acc m => acc ++ m.text ++ " ") s3
    else s3
  jsTrim s4

/-! ## Effective matching flags

The call sites in `processRules` pass `rule.caseSensitive || context.caseSensitive`
(and likewise for whole-word matching) into `checkKeywordMatch`, whose
parameter defaults to `false` when the value is still `undefined`. -/

/-- The case-sensitivity flag actually used when matching a rule. -/
def effCaseSensitive (rule : CustomRule) (ctx : ActivationContext) : Bool :=
  (jsOrBoolOpt rule.caseSensitive ctx.caseSensitive).getD false

/-- The whole-word flag actually used when matching a rule. -/
def effWholeWords (rule : CustomRule) (ctx : ActivationContext) : Bool :=
  (jsOrBoolOpt rule.matchWholeWords ctx.matchWholeWords).getD false

/-! ## The per-rule gating pipeline -/

/-- How one iteration of the `processRules` loop classifies a rule: the
branch structure of the loop body, reified.  All `skipped*` outcomes push the
rule onto the skipped list; `droppedNoText` leaves every list untouched. -/
inductive RuleOutcome where
  | skippedLimit
  | skippedProbability
  | droppedNoText
  | skippedLogic (reason : String) (primary secondary : List String)
  | skippedBudget (cost : Int)
  | activate (reason : String) (matched : List String) (cost : Int)
deriving DecidableEq, Repr

/-- The loop body of `processRules` for a single rule, as a function of the
running state it reads (history, running token total, probability draw). -/
def ruleOutcome (ctx : ActivationContext) (tokenBudget : Int)
    (currentTurn : Nat) (hist : String → List Nat) (totalTokens : Int)
    (draw : Rat) (rule : CustomRule) : RuleOutcome :=
  if !checkActivationLimits rule currentTurn hist then .skippedLimit
  else if !checkProbability rule draw then .skippedProbability
  else
    let scanText := collectScanText rule ctx
    if scanText = "" then .droppedNoText
    else
      let primaryMatch := checkKeywordMatch scanText (rule.keywords.getD [])
        (effCaseSensitive rule ctx) (effWholeWords rule ctx)
      let secondaryMatch := checkKeywordMatch scanText (rule.secondaryKeywords.getD [])
        (effCaseSensitive rule ctx) (effWholeWords rule ctx)
      let logicResult := evaluateRuleLogic rule primaryMatch.matchedKeywords
        secondaryMatch.matchedKeywords scanText
      if !logicResult.activated then
        .skippedLogic logicResult.reason primaryMatch.matchedKeywords
          secondaryMatch.matchedKeywords
      else
        let tokenCost := jsOrInt rule.tokenWeight (estimateTokens rule.content)
        if totalTokens + tokenCost > tokenBudget then .skippedBudget tokenCost
        else .activate logicResult.reason logicResult.matchedKeywords tokenCost

/-- How many `Math.random()` calls the loop body makes for this rule: one
exactly when the limit check passes and the probability is strictly between
0 and 100. -/
def drawsUsed (rule : CustomRule) (currentTurn : Nat)
    (hist : String → List Nat) : Nat :=
  if checkActivationLimits rule currentTurn hist && consumesDraw rule then 1 else 0

/-- The in-place metadata writes of a successful activation:
`rule.lastActivated = currentTurn; rule.activationCount = (rule.activationCount || 0) + 1`. -/
def updateMeta (rule : CustomRule) (currentTurn : Nat) : CustomRule :=
  { rule with
    lastActivated := some currentTurn,
    activationCount := some (jsOrNat rule.activationCount 0 + 1) }

/-- Running state of the `processRules` loop.  `upd` records the in-place
rule-object mutations, keyed by position in the input pool; `drawIdx` indexes
into the explicit randomness stream. -/
structure LoopState where
  activated : List ActivatedRule
  skipped : List CustomRule
  totalTokens : Int
  hist : String → List Nat
  upd : Nat → Option CustomRule
  drawIdx : Nat

/-- One iteration of the `processRules` loop over `(position, rule)`. -/
def stepRule (ctx : ActivationContext) (tokenBudget : Int) (currentTurn : Nat)
    (rand : Nat → Rat) (s : LoopState) (p : Nat × CustomRule) : LoopState :=
  let rule := p.2
  let s1 := { s with drawIdx := s.drawIdx + drawsUsed rule currentTurn s.hist }
  match ruleOutcome ctx tokenBudget currentTurn s.hist s.totalTokens
      (rand s.drawIdx) rule with
  | .skippedLimit => { s1 with skipped := s1.skipped ++ [rule] }
  | .skippedProbability => { s1 with skipped := s1.skipped ++ [rule] }
  | .skippedLogic _ _ _ => { s1 with skipped := s1.skipped ++ [rule] }
  | .skippedBudget _ => { s1 with skipped := s1.skipped ++ [rule] }
  | .droppedNoText => s1
  | .activate reason matched cost =>
      let rule' := updateMeta rule currentTurn
      { s1 with
        activated := s1.activated ++
          [⟨rule', reason, matched, cost, jsOrInt rule.order 0⟩],
        totalTokens := s1.totalTokens + cost,
        hist := fun id =>
          if id = rule.id then s1.hist rule.id ++ [currentTurn] else s1.hist id,
        upd := fun j => if j = p.1 then some rule' else s1.upd j }

/-! ## Stable descending sort (JS `Array.prototype.sort` with a `b - a`
numeric comparator; modern engines guarantee stability) -/

/-- Insert an element after all existing elements of greater-or-equal key. -/
def insertDesc (key : α → Int) (x : α) : List α → List α
  | [] => [x]
  | y :: ys => if key x > key y then x :: y :: ys else y :: insertDesc key x ys

/-- Stable insertion sort, descending by key. -/
def stableSortDesc (key : α → Int) (l : List α) : List α :=
  l.foldl (fun acc x => insertDesc key x acc) []

/-- Pair each element with its position, starting at `i`; positions model
JavaScript object identity for the rules of the pool. -/
def withIdx (i : Nat) : List α → List (Nat × α)
  | [] => []
  | x :: xs => (i, x) :: withIdx (i + 1) xs

/-- Everything a `processRules` call produces: the returned
`ActivationResult`, plus the explicit rendering of its side effects — the
rule pool after the in-place metadata writes, and the activation-history map
after the appends. -/
structure ProcessOutput where
  result : ActivationResult
  rulesAfter : List CustomRule
  histAfter : String → List Nat

/-- The `activeRules` list of `processRules`: filter to `isActive`, then
sort by descending order value (stable), keeping each rule's position in the
input pool as its identity. -/
def activeRulesOf (rules : List CustomRule) : List (Nat × CustomRule) :=
  stableSortDesc (fun p => jsOrInt p.2.order 0)
    ((withIdx 0 rules).filter (fun p => p.2.isActive))

/-- The state of the `processRules` loop after the pass over all active
rules. -/
def finalState (rules : List CustomRule) (ctx : ActivationContext)
    (hist0 : String → List Nat) (rand : Nat → Rat) : LoopState :=
  (activeRulesOf rules).foldl
    (stepRule ctx (jsOrInt ctx.tokenBudget 5000) (jsOrNat ctx.currentTurn 0) rand)
    ⟨[], [], 0, hist0, fun _ => none, 0⟩

/-- `processRules`: filter to active rules, sort by descending order value,
run the gating pipeline rule by rule under the token budget, and re-sort the
activated list by descending priority. -/
def processRules (rules : List CustomRule) (ctx : ActivationContext)
    (hist0 : String → List Nat) (rand : Nat → Rat) : ProcessOutput :=
  let tokenBudget := jsOrInt ctx.tokenBudget 5000
  let final := finalState rules ctx hist0 rand
  { result :=
      { activatedRules := stableSortDesc (fun a => a.priority) final.activated,
        totalTokens := final.totalTokens,
        budgetExceeded := final.totalTokens > tokenBudget,
        skippedRules := final.skipped },
    rulesAfter := (withIdx 0 rules).map (fun p => (final.upd p.1).getD p.2),
    histAfter := final.hist }

/-! ## Prompt formatting -/

/-- The footer of the formatted block, encoding the number of activated
rules and the total token count. -/
def footerStr (n : Nat) (t : Int) : String :=
  "\n=== Tổng cộng: " ++ toString n ++ " luật, " ++ toString t ++ " tokens ===\n"

/-- The per-rule sub-block of `formatForPrompt`. -/
def ruleBlock (a : ActivatedRule) : String :=
  let rule := a.rule
  let title := jsOrStr rule.title ("Luật " ++ rule.id)
  "\n[" ++ title ++ "] (Độ ưu tiên: " ++ toString (jsOrInt rule.order 0) ++ ")" ++
    (if !a.matchedKeywords.isEmpty then
      " - Khớp từ khóa: " ++ String.intercalate ", " a.matchedKeywords
    else "") ++
    "\n" ++ rule.content ++ "\n"

/-- `formatForPrompt`: empty when nothing activated, else header, one block
per activated rule, and a footer with the rule count and token total. -/
def formatForPrompt (activationResult : ActivationResult) : String :=
  if activationResult.activatedRules.isEmpty then ""
  else
    let header := "\n=== LUẬT LỆ TÙY CHỈNH ĐƯỢC KÍCH HOẠT ===\n"
    let body := activationResult.activatedRules.foldl
      (fun acc a => acc ++ ruleBlock a) header
    body ++ footerStr activationResult.activatedRules.length
      activationResult.totalTokens

/-! ## Generic helper lemmas -/

/-- A predicate preserved by every step of a left fold holds of the result. -/
theorem foldl_preserve {σ α : Type _} (f : σ → α → σ) (P : σ → Prop)
    (Q : α → Prop) (hstep : ∀ s a, P s → Q a → P (f s a)) :
    ∀ (l : List α) (s : σ), (∀ a ∈ l, Q a) → P s → P (l.foldl f s) := by
  intro l
  induction l with
  | nil => intro s _ hs; exact hs
  | cons x xs ih =>
      intro s hq hs
      exact ih (f s x) (fun a ha => hq a (List.mem_cons_of_mem x ha))
        (hstep s x hs (hq x (List.mem_cons_self x xs)))

/-- Membership in `insertDesc`. -/
theorem mem_insertDesc {key : α → Int} {x a : α} :
    ∀ {l : List α}, a ∈ insertDesc key x l ↔ a = x ∨ a ∈ l := by
  intro l
  induction l with
  | nil => simp [insertDesc]
  | cons y ys ih =>
      by_cases h : key x > key y
      · simp [insertDesc, h]
      · simp only [insertDesc, if_neg h, List.mem_cons, ih]
        tauto

/-- Membership in `stableSortDesc` coincides with membership in the input. -/
theorem mem_stableSortDesc {key : α → Int} {a : α} {l : List α} :
    a ∈ stableSortDesc key l ↔ a ∈ l := by
  have h : ∀ (l : List α) (acc : List α),
      a ∈ l.foldl (fun acc x => insertDesc key x acc) acc ↔ a ∈ acc ∨ a ∈ l := by
    intro l
    induction l with
    | nil => simp
    | cons x xs ih =>
        intro acc
        simp only [List.foldl_cons, ih, mem_insertDesc, List.mem_cons]
        tauto
  simpa [stableSortDesc] using h l []

/-- Elements of `withIdx i l` are elements of `l` at their recorded
position. -/
theorem mem_withIdx {p : Nat × α} :
    ∀ {l : List α} {i : Nat}, p ∈ withIdx i l →
      ∃ j, p.1 = i + j ∧ l.get? j = some p.2 := by
  intro l
  induction l with
  | nil => intro i h; simp [withIdx] at h
  | cons x xs ih =>
      intro i h
      simp only [withIdx, List.mem_cons] at h
      rcases h with h | h
      · exact ⟨0, by simp [h]⟩
      · rcases ih h with ⟨j, hj, hget⟩
        exact ⟨j + 1, by omega, by simpa using hget⟩

/-- `withIdx` looked up by position. -/
theorem withIdx_get? : ∀ (l : List α) (i j : Nat),
    (withIdx i l).get? j = (l.get? j).map (fun x => (i + j, x)) := by
  intro l
  induction l with
  | nil => intro i j; simp [withIdx]
  | cons x xs ih =>
      intro i j
      cases j with
      | zero => simp [withIdx]
      | succ j =>
          simp only [withIdx, List.get?_cons_succ, ih (i + 1) j]
          cases xs.get? j <;> simp <;> omega

/-- `withIdx` preserves length. -/
theorem withIdx_length : ∀ (l : List α) (i : Nat),
    (withIdx i l).length = l.length := by
  intro l
  induction l with
  | nil => intro i; rfl
  | cons x xs ih => intro i; simp [withIdx, ih]

/-- Generic pull-out-the-seed lemma for string-accumulating folds. -/
theorem foldl_string_init (f : String → α → String)
    (hf : ∀ s x, f s x = s ++ f "" x) :
    ∀ (l : List α) (s : String), l.foldl f s = s ++ l.foldl f "" := by
  intro l
  induction l with
  | nil => intro s; simp [String.append_empty]
  | cons x xs ih =>
      intro s
      rw [List.foldl_cons, List.foldl_cons, ih (f s x), ih (f "" x),
        hf s x, String.append_assoc]

/-! ## Decomposition of `collectScanText` (spec §4.1)

The following definitions follow the specification's wording for the five
text sources; the decomposition theorem below relates them to the source's
sequential accumulation.  `aiHistoryPart` takes no depth argument at all:
the AI-authored slice of history is always the last 3 `model` entries. -/

/-- Fold appending each history entry's joined text plus a space. -/
def entryFold (l : List GameHistoryEntry) : String :=
  l.foldl (fun acc e => acc ++ entryText e ++ " ") ""

/-- Fold appending only `user` entries' joined texts plus a space. -/
def userFold (l : List GameHistoryEntry) : String :=
  l.foldl (fun acc e => if e.role == "user" then acc ++ entryText e ++ " " else acc) ""

/-- Fold appending each memory's text plus a space. -/
def memFold (l : List Memory) : String :=
  l.foldl (fun acc m => acc ++ m.text ++ " ") ""

/-- Spec §4.1 source 1: the current player input, when enabled. -/
def playerInputPart (rule : CustomRule) (ctx : ActivationContext) : String :=
  if (rule.scanPlayerInput != some false) && (ctx.playerInput != "") then
    ctx.playerInput ++ " "
  else ""

/-- Spec §4.1 source 2: the current AI response, when enabled. -/
def aiResponsePart (rule : CustomRule) (ctx : ActivationContext) : String :=
  if (rule.scanAIOutput != some false) && (ctx.aiResponse != "") then
    ctx.aiResponse ++ " "
  else ""

/-- Spec §4.1 source 3: the last 3 AI-authored history entries — note the
absence of any depth parameter. -/
def aiHistoryPart (rule : CustomRule) (gameHistory : List GameHistoryEntry) :
    String :=
  if !gameHistory.isEmpty && (rule.scanAIOutput != some false) then
    entryFold (takeLast 3 (gameHistory.filter (fun e => e.role == "model")))
  else ""

/-- Spec §4.1 source 4: player-authored entries among the last `depth`
history entries. -/
def playerHistoryPart (rule : CustomRule) (gameHistory : List GameHistoryEntry)
    (depth : Nat) : String :=
  if !gameHistory.isEmpty && (rule.scanPlayerInput != some false) then
    userFold (takeLast depth gameHistory)
  else ""

/-- Spec §4.1 source 5: the last `depth` kept memories. -/
def memoryPart (rule : CustomRule) (memories : List Memory) (depth : Nat) :
    String :=
  if rule.scanMemories != some false then
    memFold (takeLast depth (memories.filter memoryKept))
  else ""

/-- Seed extraction for `entryFold`-shaped folds. -/
theorem entryFold_init (l : List GameHistoryEntry) (s : String) :
    l.foldl (fun acc e => acc ++ entryText e ++ " ") s = s ++ entryFold l := by
  refine foldl_string_init _ ?_ l s
  intro a x
  rw [String.empty_append, String.append_assoc]

/-- Seed extraction for `userFold`-shaped folds. -/
theorem userFold_init (l : List GameHistoryEntry) (s : String) :
    l.foldl (fun acc e => if e.role == "user" then acc ++ entryText e ++ " " else acc) s
      = s ++ userFold l := by
  refine foldl_string_init _ ?_ l s
  intro a x
  by_cases h : x.role == "user"
  · simp only [h, if_true, String.empty_append, String.append_assoc]
  · simp only [h, if_false, Bool.false_eq_true, String.append_empty]

/-- Seed extraction for `memFold`-shaped folds. -/
theorem memFold_init (l : List Memory) (s : String) :
    l.foldl (fun acc m => acc ++ m.text ++ " ") s = s ++ memFold l := by
  refine foldl_string_init _ ?_ l s
  intro a x
  rw [String.empty_append, String.append_assoc]

/-- `collectScanText` decomposed into the five independent source parts of
spec §4.1.  The AI-authored history contribution `aiHistoryPart` takes no
depth argument — it is always the last 3 `model` entries — while the
player-authored history contribution and the memory contribution use the
resolved scan depth. -/
theorem collectScanText_decomp (rule : CustomRule) (ctx : ActivationContext) :
    collectScanText rule ctx =
      jsTrim (playerInputPart rule ctx ++ aiResponsePart rule ctx ++
        aiHistoryPart rule ctx.gameHistory ++
        playerHistoryPart rule ctx.gameHistory
          (jsOrNat rule.scanDepth (jsOrNat ctx.scanDepth 5)) ++
        memoryPart rule ctx.memories
          (jsOrNat rule.scanDepth (jsOrNat ctx.scanDepth 5))) := by
  unfold collectScanText playerInputPart aiResponsePart aiHistoryPart
    playerHistoryPart memoryPart
  cases hg : ctx.gameHistory.isEmpty <;>
    cases ha : rule.scanAIOutput != some false <;>
      cases hp : rule.scanPlayerInput != some false <;>
        cases hm : rule.scanMemories != some false <;>
          cases hpi : ctx.playerInput != "" <;>
            cases hai : ctx.aiResponse != "" <;>
              simp only [hg, ha, hp, hm, hpi, hai, Bool.true_and,
                Bool.false_and, Bool.and_true, Bool.and_false, if_true,
                if_false, Bool.false_eq_true, ite_true, ite_false] <;>
              (try simp only [entryFold_init, userFold_init, memFold_init]) <;>
              simp [String.append_assoc, String.append_empty,
                String.empty_append]

/-! ## Facts about the gating pipeline -/

/-- A rule is only classified `activate` when its cost fits the remaining
budget. -/
theorem ruleOutcome_activate_le (ctx : ActivationContext) (b : Int) (t : Nat)
    (hist : String → List Nat) (total : Int) (draw : Rat) (rule : CustomRule)
    {r : String} {m : List String} {c : Int}
    (h : ruleOutcome ctx b t hist total draw rule = RuleOutcome.activate r m c) :
    total + c ≤ b := by
  simp only [ruleOutcome] at h
  repeat' split at h
  all_goals cases h
  all_goals omega

/-- Invariant for claim C2: every recorded rule is active. -/
def StateActive (s : LoopState) : Prop :=
  (∀ r ∈ s.skipped, r.isActive = true) ∧
  (∀ a ∈ s.activated, a.rule.isActive = true)

/-- `updateMeta` only touches the runtime metadata fields. -/
theorem updateMeta_isActive (rule : CustomRule) (t : Nat) :
    (updateMeta rule t).isActive = rule.isActive := rfl

/-- One loop step preserves `StateActive` when fed an active rule. -/
theorem stepRule_active (ctx : ActivationContext) (b : Int) (t : Nat)
    (rand : Nat → Rat) (s : LoopState) (p : Nat × CustomRule)
    (hp : p.2.isActive = true) (hs : StateActive s) :
    StateActive (stepRule ctx b t rand s p) := by
  obtain ⟨hsk, hac⟩ := hs
  cases hout : ruleOutcome ctx b t s.hist s.totalTokens (rand s.drawIdx) p.2 <;>
    simp only [stepRule, hout] <;>
    refine ⟨?_, ?_⟩ <;>
    intro x hx <;>
    first
      | exact hsk x hx
      | exact hac x hx
      | (rcases List.mem_append.mp hx with hx | hx
         · first
             | exact hsk x hx
             | exact hac x hx
         · simp only [List.mem_singleton] at hx
           subst hx
           exact hp)

/-- Every element produced by `activeRulesOf` is an active rule of the pool
at its recorded position. -/
theorem mem_activeRulesOf {rules : List CustomRule} {p : Nat × CustomRule}
    (h : p ∈ activeRulesOf rules) :
    rules.get? p.1 = some p.2 ∧ p.2.isActive = true := by
  have h1 : p ∈ (withIdx 0 rules).filter (fun p => p.2.isActive) :=
    mem_stableSortDesc.mp h
  have h2 := List.mem_filter.mp h1
  rcases mem_withIdx h2.1 with ⟨j, hj, hget⟩
  refine ⟨?_, by simpa using h2.2⟩
  simpa [hj] using hget

/-- The final loop state satisfies `StateActive`. -/
theorem finalState_active (rules : List CustomRule) (ctx : ActivationContext)
    (hist0 : String → List Nat) (rand : Nat → Rat) :
    StateActive (finalState rules ctx hist0 rand) := by
  refine foldl_preserve _ StateActive (fun p => p.2.isActive = true)
    (fun s a hs ha => stepRule_active _ _ _ _ s a ha hs) _ _
    (fun a ha => (mem_activeRulesOf ha).2) ?_
  exact ⟨fun r hr => absurd hr (List.not_mem_nil r),
    fun a ha => absurd ha (List.not_mem_nil a)⟩

/-- Invariant for claim C9: the running total stays within budget. -/
theorem stepRule_budget (ctx : ActivationContext) (b : Int) (t : Nat)
    (rand : Nat → Rat) (s : LoopState) (p : Nat × CustomRule)
    (hs : s.totalTokens ≤ b) :
    (stepRule ctx b t rand s p).totalTokens ≤ b := by
  cases hout : ruleOutcome ctx b t s.hist s.totalTokens (rand s.drawIdx) p.2 <;>
    simp only [stepRule, hout]
  · exact hs
  · exact hs
  · exact hs
  · exact hs
  · exact hs
  · exact ruleOutcome_activate_le _ _ _ _ _ _ _ hout

/-- The final running total never exceeds a nonnegative budget. -/
theorem finalState_budget (rules : List CustomRule) (ctx : ActivationContext)
    (hist0 : String → List Nat) (rand : Nat → Rat)
    (hb : 0 ≤ jsOrInt ctx.tokenBudget 5000) :
    (finalState rules ctx hist0 rand).totalTokens ≤ jsOrInt ctx.tokenBudget 5000 := by
  unfold finalState
  exact foldl_preserve _ (fun s => s.totalTokens ≤ jsOrInt ctx.tokenBudget 5000)
    (fun _ => True) (fun s a hs _ => stepRule_budget _ _ _ _ s a hs)
    (activeRulesOf rules) ⟨[], [], 0, hist0, fun _ => none, 0⟩
    (fun _ _ => trivial) hb

/-- The ids of the rules recorded as activated. -/
def idsOf (l : List ActivatedRule) : List String :=
  l.map (fun a => a.rule.id)

/-- Invariant for claims C4 and C7: all mutation is tied to activations.
`hist0` is the history map at the start of the call. -/
def StateMeta (rules : List CustomRule) (hist0 : String → List Nat) (t : Nat)
    (s : LoopState) : Prop :=
  (∀ id, id ∉ idsOf s.activated → s.hist id = hist0 id) ∧
  (∀ id, id ∈ idsOf s.activated →
    ∃ k, 0 < k ∧ s.hist id = hist0 id ++ List.replicate k t) ∧
  (∀ j r', s.upd j = some r' →
    ∃ r0, rules.get? j = some r0 ∧ r' = updateMeta r0 t ∧
      r'.id ∈ idsOf s.activated) ∧
  (∀ a ∈ s.activated, a.rule.lastActivated = some t ∧
    ∃ c0, a.rule.activationCount = some (c0 + 1))

/-- One loop step preserves `StateMeta` when fed a rule of the pool. -/
theorem stepRule_meta (rules : List CustomRule) (hist0 : String → List Nat)
    (ctx : ActivationContext) (b : Int) (t : Nat) (rand : Nat → Rat)
    (s : LoopState) (p : Nat × CustomRule)
    (hq : rules.get? p.1 = some p.2) (hs : StateMeta rules hist0 t s) :
    StateMeta rules hist0 t (stepRule ctx b t rand s p) := by
  obtain ⟨h1, h2, h3, h4⟩ := hs
  cases hout : ruleOutcome ctx b t s.hist s.totalTokens (rand s.drawIdx) p.2 <;>
    simp only [stepRule, hout]
  · exact ⟨h1, h2, h3, h4⟩
  · exact ⟨h1, h2, h3, h4⟩
  · exact ⟨h1, h2, h3, h4⟩
  · exact ⟨h1, h2, h3, h4⟩
  · exact ⟨h1, h2, h3, h4⟩
  · -- activate case
    rename_i reason matched cost
    refine ⟨?_, ?_, ?_, ?_⟩
    · intro id hid
      simp only [idsOf, List.map_append, List.mem_append, List.map_cons,
        List.map_nil, List.mem_singleton, not_or] at hid
      have hne : id ≠ p.2.id := by
        intro hcontra
        exact hid.2 (by simpa [updateMeta] using hcontra)
      simp only [if_neg hne]
      exact h1 id (by simpa [idsOf] using hid.1)
    · intro id hid
      simp only [idsOf, List.map_append, List.mem_append, List.map_cons,
        List.map_nil, List.mem_singleton] at hid
      by_cases hne : id = p.2.id
      · simp only [if_pos hne]
        by_cases hin : p.2.id ∈ idsOf s.activated
        · rcases h2 p.2.id hin with ⟨k, hk, heq⟩
          refine ⟨k + 1, by omega, ?_⟩
          rw [hne, heq, List.append_assoc, List.replicate_succ']
        · refine ⟨1, by omega, ?_⟩
          rw [hne, h1 p.2.id hin]
          simp
      · simp only [if_neg hne]
        rcases hid with hid | hid
        · exact h2 id (by simpa [idsOf] using hid)
        · exact absurd (by simpa [updateMeta] using hid) hne
    · intro j r' hj
      by_cases hne : j = p.1
      · simp only [if_pos hne] at hj
        injection hj with hj
        refine ⟨p.2, by rw [hne]; exact hq, hj.symm, ?_⟩
        rw [← hj]
        simp [idsOf]
      · simp only [if_neg hne] at hj
        rcases h3 j r' hj with ⟨r0, hr0, hupd, hmem⟩
        refine ⟨r0, hr0, hupd, ?_⟩
        simp only [idsOf, List.map_append, List.mem_append]
        exact Or.inl (by simpa [idsOf] using hmem)
    · intro a ha
      rcases List.mem_append.mp ha with ha | ha
      · exact h4 a ha
      · simp only [List.mem_singleton] at ha
        subst ha
        exact ⟨rfl, ⟨jsOrNat p.2.activationCount 0, rfl⟩⟩

/-- The final loop state satisfies `StateMeta`. -/
theorem finalState_meta (rules : List CustomRule) (ctx : ActivationContext)
    (hist0 : String → List Nat) (rand : Nat → Rat) :
    StateMeta rules hist0 (jsOrNat ctx.currentTurn 0)
      (finalState rules ctx hist0 rand) := by
  unfold finalState
  refine foldl_preserve _ (StateMeta rules hist0 (jsOrNat ctx.currentTurn 0))
    (fun p => rules.get? p.1 = some p.2)
    (fun s a hs ha => stepRule_meta rules hist0 ctx _ _ rand s a ha hs)
    (activeRulesOf rules) ⟨[], [], 0, hist0, fun _ => none, 0⟩
    (fun a ha => (mem_activeRulesOf ha).1) ?_
  refine ⟨fun id _ => rfl, ?_, ?_, ?_⟩
  · intro id hid
    simp [idsOf] at hid
  · intro j r' hj
    simp at hj
  · intro a ha
    exact absurd ha (List.not_mem_nil a)

/-- `jsOrNat` with default 0 is plain `getD`. -/
theorem jsOrNat_zero (o : Option Nat) : jsOrNat o 0 = o.getD 0 := by
  cases o with
  | none => rfl
  | some n =>
      by_cases h : n = 0 <;> simp [jsOrNat, h]

/-- The rule pool after the call, looked up by position. -/
theorem rulesAfter_get? (rules : List CustomRule) (ctx : ActivationContext)
    (hist0 : String → List Nat) (rand : Nat → Rat) (i : Nat) :
    (processRules rules ctx hist0 rand).rulesAfter.get? i =
      (rules.get? i).map
        (fun r => ((finalState rules ctx hist0 rand).upd i).getD r) := by
  show ((withIdx 0 rules).map
      (fun p => ((finalState rules ctx hist0 rand).upd p.1).getD p.2)).get? i = _
  rw [List.get?_map, withIdx_get? rules 0 i]
  cases rules.get? i <;> simp

/-! ## Concrete scenario data -/

/-- A baseline rule with every optional field unset. -/
def noRule : CustomRule :=
  { id := "", title := none, keywords := none, secondaryKeywords := none,
    logic := none, alwaysActive := false, caseSensitive := none,
    matchWholeWords := none, scanDepth := none, scanPlayerInput := none,
    scanAIOutput := none, scanMemories := none, tokenWeight := none,
    probability := none, maxActivationsPerTurn := none, order := none,
    isActive := true, content := "", lastActivated := none,
    activationCount := none }

/-- A baseline context with every optional field unset. -/
def emptyCtx : ActivationContext :=
  { playerInput := "", aiResponse := "", gameHistory := [], memories := [],
    currentTurn := none, scanDepth := none, tokenBudget := none,
    caseSensitive := none, matchWholeWords := none }

/-- The empty activation-history map. -/
def histEmpty : String → List Nat := fun _ => []

/-- A constant randomness stream. -/
def randZero : Nat → Rat := fun _ => 0

/-- C1 rule R1: priority 10, cost 3000, keyword-activated. -/
def c1R1 : CustomRule :=
  { noRule with
    id := "R1", keywords := some ["dragon"],
    tokenWeight := some 3000, order := some 10 }

/-- C1 rule R2: priority 5, cost 3000, keyword-activated. -/
def c1R2 : CustomRule :=
  { noRule with
    id := "R2", keywords := some ["dragon"],
    tokenWeight := some 3000, order := some 5 }

/-- C1 context: both keywords match, budget 5000. -/
def c1Ctx : ActivationContext :=
  { emptyCtx with
    playerInput := "a dragon appears", tokenBudget := some 5000 }

/-! ## The claims -/

/-- C1: token-budget admission in `processRules` is greedy in descending
priority order.  With R1 (priority 10, cost 3000) and R2 (priority 5, cost
3000), both active and keyword-activated, under a 5000-token budget, exactly
R1 is activated, R2 is skipped, the total is 3000, `budgetExceeded` is
false, and R2's classification at the moment it is processed (running total
3000) is precisely the budget-exceeded skip. -/
theorem c1_budget_admission_greedy :
    ((processRules [c1R1, c1R2] c1Ctx histEmpty randZero).result.activatedRules.map
      (fun a => a.rule.id)) = ["R1"] ∧
    ((processRules [c1R1, c1R2] c1Ctx histEmpty randZero).result.skippedRules.map
      (fun r => r.id)) = ["R2"] ∧
    (processRules [c1R1, c1R2] c1Ctx histEmpty randZero).result.budgetExceeded = false ∧
    (processRules [c1R1, c1R2] c1Ctx histEmpty randZero).result.totalTokens = 3000 ∧
    ruleOutcome c1Ctx 5000 0 histEmpty 3000 (randZero 0) c1R2 =
      RuleOutcome.skippedBudget 3000 := by
  refine ⟨?_, ?_, ?_, ?_, ?_⟩ <;> decide

/-- C2: a rule with `isActive = false` appears in neither the activated nor
the skipped list of any `processRules` result. -/
theorem c2_inactive_rules_excluded (rules : List CustomRule)
    (ctx : ActivationContext) (hist0 : String → List Nat) (rand : Nat → Rat)
    (r : CustomRule) (hr : r.isActive = false) :
    r ∉ (processRules rules ctx hist0 rand).result.skippedRules ∧
    ∀ a ∈ (processRules rules ctx hist0 rand).result.activatedRules,
      a.rule ≠ r := by
  obtain ⟨hsk, hac⟩ := finalState_active rules ctx hist0 rand
  constructor
  · intro hmem
    have hmem' : r ∈ (finalState rules ctx hist0 rand).skipped := hmem
    have := hsk r hmem'
    rw [hr] at this
    cases this
  · intro a ha heq
    have hmem : a ∈ (finalState rules ctx hist0 rand).activated :=
      mem_stableSortDesc.mp ha
    have := hac a hmem
    rw [heq, hr] at this
    cases this

/-- An inactive demo rule for the C2 witness. -/
def c2Inactive : CustomRule :=
  { noRule with id := "off", keywords := some ["dragon"], isActive := false }

/-- Witness for C2 at a concrete call. -/
theorem c2_inactive_rules_excluded_witness :
    c2Inactive ∉ (processRules [c2Inactive, c1R1] c1Ctx histEmpty
      randZero).result.skippedRules ∧
    ∀ a ∈ (processRules [c2Inactive, c1R1] c1Ctx histEmpty
      randZero).result.activatedRules, a.rule ≠ c2Inactive :=
  c2_inactive_rules_excluded [c2Inactive, c1R1] c1Ctx histEmpty randZero
    c2Inactive rfl

/-- C9: for every call whose resolved token budget is nonnegative, the
returned total stays within budget and `budgetExceeded` is false. -/
theorem c9_budget_never_exceeded (rules : List CustomRule)
    (ctx : ActivationContext) (hist0 : String → List Nat) (rand : Nat → Rat)
    (hb : 0 ≤ jsOrInt ctx.tokenBudget 5000) :
    (processRules rules ctx hist0 rand).result.totalTokens ≤
      jsOrInt ctx.tokenBudget 5000 ∧
    (processRules rules ctx hist0 rand).result.budgetExceeded = false := by
  have h := finalState_budget rules ctx hist0 rand hb
  refine ⟨h, ?_⟩
  show decide ((finalState rules ctx hist0 rand).totalTokens >
    jsOrInt ctx.tokenBudget 5000) = false
  simpa [decide_eq_false_iff_not, not_lt] using h

/-- Witness for C9 at a concrete call. -/
theorem c9_budget_never_exceeded_witness :
    (processRules [c1R1, c1R2] c1Ctx histEmpty randZero).result.totalTokens ≤
      jsOrInt c1Ctx.tokenBudget 5000 ∧
    (processRules [c1R1, c1R2] c1Ctx histEmpty
      randZero).result.budgetExceeded = false :=
  c9_budget_never_exceeded [c1R1, c1R2] c1Ctx histEmpty randZero (by decide)

/-- C3 counterexample rule: explicitly sets `caseSensitive := false`. -/
def c3R : CustomRule :=
  { noRule with
    id := "r3", keywords := some ["Cat"],
    caseSensitive := some false, content := "c" }

/-- C3 context whose default is case-sensitive. -/
def c3CtxTrue : ActivationContext :=
  { emptyCtx with playerInput := "the cat sat", caseSensitive := some true }

/-- The same context with the default unset. -/
def c3CtxNone : ActivationContext :=
  { emptyCtx with playerInput := "the cat sat" }

/-- C3 (counterexample): a rule that explicitly sets `caseSensitive = false`
does NOT override a `true` context default: the effective flag is `true` and
the rule fails to activate, whereas with the context default unset the same
rule activates.  So matching does not use the rule's value regardless of the
context default. -/
theorem c3_rule_override_counterexample :
    c3R.caseSensitive = some false ∧
    effCaseSensitive c3R c3CtxTrue = true ∧
    (processRules [c3R] c3CtxTrue histEmpty randZero).result.activatedRules = [] ∧
    ((processRules [c3R] c3CtxNone histEmpty randZero).result.activatedRules.map
      (fun a => a.rule.id)) = ["r3"] := by
  refine ⟨?_, ?_, ?_, ?_⟩ <;> decide

/-- C3 (amended): the effective case-sensitivity and whole-word flags used
by the matching calls in `processRules` are the JavaScript `||` of the
rule-level and context-level values, with unset treated as `false`: a
rule-level `true` forces the flag on regardless of the context, but a
rule-level `false` behaves exactly like unset and defers to the context
default. -/
theorem c3_flag_resolution_amended (rule : CustomRule)
    (ctx : ActivationContext) :
    effCaseSensitive rule ctx =
      (rule.caseSensitive.getD false || ctx.caseSensitive.getD false) ∧
    effWholeWords rule ctx =
      (rule.matchWholeWords.getD false || ctx.matchWholeWords.getD false) := by
  constructor
  · rcases h : rule.caseSensitive with _ | b
    · cases hc : ctx.caseSensitive <;>
        simp [effCaseSensitive, jsOrBoolOpt, h, hc]
    · cases b <;> cases hc : ctx.caseSensitive <;>
        simp [effCaseSensitive, jsOrBoolOpt, h, hc]
  · rcases h : rule.matchWholeWords with _ | b
    · cases hc : ctx.matchWholeWords <;>
        simp [effWholeWords, jsOrBoolOpt, h, hc]
    · cases b <;> cases hc : ctx.matchWholeWords <;>
        simp [effWholeWords, jsOrBoolOpt, h, hc]

/-- C5: under `NOT_ALL` logic, a non-always-active rule with at least one
configured keyword activates exactly when the matched-keyword total is
strictly between zero and the configured-keyword total. -/
theorem c5_notall_partial_match (rule : CustomRule) (pm sm : List String)
    (allText : String) (ha : rule.alwaysActive = false)
    (hk : 0 < (rule.keywords.getD []).length +
      (rule.secondaryKeywords.getD []).length)
    (hl : rule.logic.getD RuleLogic.AND_ANY = RuleLogic.NOT_ALL) :
    (evaluateRuleLogic rule pm sm allText).activated = true ↔
      (0 < pm.length + sm.length ∧
        pm.length + sm.length <
          (rule.keywords.getD []).length +
            (rule.secondaryKeywords.getD []).length) := by
  have hcond : (!(!(rule.keywords.getD []).isEmpty) &&
      !(!(rule.secondaryKeywords.getD []).isEmpty)) = false := by
    cases hke : (rule.keywords.getD []).isEmpty
    · simp
    · cases hse : (rule.secondaryKeywords.getD []).isEmpty
      · simp
      · exfalso
        rw [List.isEmpty_iff] at hke hse
        rw [hke, hse] at hk
        simp at hk
  simp only [evaluateRuleLogic, ha, hl, hcond, Bool.false_eq_true, if_false]
  by_cases hc : (pm ++ sm).length <
      (rule.keywords.getD []).length + (rule.secondaryKeywords.getD []).length
      ∧ 0 < (pm ++ sm).length
  · rw [if_pos (by simpa [decide_eq_true_eq, List.length_append] using
      ⟨by simpa [List.length_append] using hc.1,
       by simpa [List.length_append] using hc.2⟩)]
    simp only [List.length_append] at hc
    exact ⟨fun _ => ⟨hc.2, hc.1⟩, fun _ => rfl⟩
  · rw [if_neg (by
      simp only [Bool.and_eq_true, decide_eq_true_eq, gt_iff_lt,
        List.length_append]
      simp only [List.length_append] at hc
      tauto)]
    simp only [List.length_append] at hc
    constructor
    · intro hfalse
      cases hfalse
    · intro hh
      exact absurd ⟨hh.2, hh.1⟩ hc

/-- Demo rule for the C5 witness: two configured keywords, `NOT_ALL`. -/
def c5Rule : CustomRule :=
  { noRule with
    id := "n", keywords := some ["a", "b"],
    logic := some RuleLogic.NOT_ALL }

/-- Witness for C5 at a concrete rule and match lists. -/
theorem c5_notall_partial_match_witness :
    (evaluateRuleLogic c5Rule ["a"] [] "t").activated = true ↔
      (0 < (["a"] : List String).length + ([] : List String).length ∧
        (["a"] : List String).length + ([] : List String).length <
          (c5Rule.keywords.getD []).length +
            (c5Rule.secondaryKeywords.getD []).length) :=
  c5_notall_partial_match c5Rule ["a"] [] "t" rfl (by decide) rfl

/-- C10: a `0` value is treated as absent by the falsy defaulting.  A rule
with `scanDepth = 0` collects exactly the same scan text as one with
`scanDepth` unset (both resolve to the context depth, else 5), and a context
with `tokenBudget = 0` yields the very same `processRules` output as one
with `tokenBudget` unset (both resolve to 5000). -/
theorem c10_zero_treated_as_absent (rule : CustomRule)
    (ctx : ActivationContext) (rules : List CustomRule)
    (hist0 : String → List Nat) (rand : Nat → Rat) :
    collectScanText { rule with scanDepth := some 0 } ctx =
      collectScanText { rule with scanDepth := none } ctx ∧
    processRules rules { ctx with tokenBudget := some 0 } hist0 rand =
      processRules rules { ctx with tokenBudget := none } hist0 rand := by
  constructor
  · cases rule
    rfl
  · cases ctx
    rfl

/-- C6: the scan text decomposes into independent source parts, where the
AI-authored history contribution (`aiHistoryPart`) is always exactly the
last 3 `model` entries — the definition takes no depth argument, so it is
independent of the rule's or context's configured scan depth — while
player-authored history entries are drawn only from the last `depth` history
entries with `depth` resolved as rule `scanDepth`, else context `scanDepth`,
else 5. -/
theorem c6_history_scan_slices (rule : CustomRule) (ctx : ActivationContext) :
    collectScanText rule ctx =
      jsTrim (playerInputPart rule ctx ++ aiResponsePart rule ctx ++
        aiHistoryPart rule ctx.gameHistory ++
        playerHistoryPart rule ctx.gameHistory
          (jsOrNat rule.scanDepth (jsOrNat ctx.scanDepth 5)) ++
        memoryPart rule ctx.memories
          (jsOrNat rule.scanDepth (jsOrNat ctx.scanDepth 5))) ∧
    (∀ d : Option Nat,
      aiHistoryPart { rule with scanDepth := d } ctx.gameHistory =
        aiHistoryPart rule ctx.gameHistory) :=
  ⟨collectScanText_decomp rule ctx, fun _ => rfl⟩

/-- C4 demo rule: always-active, so it activates on every call. -/
def c4Rule : CustomRule :=
  { noRule with id := "r4", alwaysActive := true, content := "xxxx" }

/-- First C4 call: turn 1. -/
def c4CtxA : ActivationContext :=
  { emptyCtx with playerInput := "x", currentTurn := some 1 }

/-- Second C4 call: turn 0 (the caller passes a smaller turn). -/
def c4CtxB : ActivationContext :=
  { emptyCtx with playerInput := "x", currentTurn := some 0 }

/-- C4 (counterexample): `lastActivated` is NOT monotonically non-decreasing
across successive calls on the same engine state.  After a call at turn 1
the rule's `lastActivated` is 1; a subsequent call at turn 0 on the same
engine state overwrites it with 0 — a decrease. -/
theorem c4_monotonicity_counterexample :
    ((processRules [c4Rule] c4CtxA histEmpty randZero).rulesAfter.map
      (fun r => r.lastActivated)) = [some 1] ∧
    (((processRules
        (processRules [c4Rule] c4CtxA histEmpty randZero).rulesAfter c4CtxB
        (processRules [c4Rule] c4CtxA histEmpty randZero).histAfter
        randZero).rulesAfter).map (fun r => r.lastActivated)) = [some 0] := by
  refine ⟨?_, ?_⟩ <;> decide

/-- C4 (amended): per call, `activationCount` is monotonically
non-decreasing for every rule of the pool, and `lastActivated` is
non-decreasing provided the call's resolved current turn is at least the
rule's previous `lastActivated` (as when the caller's turn counter never
decreases); a rule not activated keeps both fields unchanged, an activated
rule gets `lastActivated := currentTurn` and `activationCount + 1`. -/
theorem c4_metadata_monotone_amended (rules : List CustomRule)
    (ctx : ActivationContext) (hist0 : String → List Nat) (rand : Nat → Rat)
    (i : Nat) (r : CustomRule) (hget : rules.get? i = some r) :
    ∃ r', (processRules rules ctx hist0 rand).rulesAfter.get? i = some r' ∧
      r.activationCount.getD 0 ≤ r'.activationCount.getD 0 ∧
      (r.lastActivated.getD 0 ≤ jsOrNat ctx.currentTurn 0 →
        r.lastActivated.getD 0 ≤ r'.lastActivated.getD 0) := by
  obtain ⟨-, -, h3, -⟩ := finalState_meta rules ctx hist0 rand
  rw [rulesAfter_get? rules ctx hist0 rand i, hget]
  refine ⟨((finalState rules ctx hist0 rand).upd i).getD r, rfl, ?_⟩
  cases hupd : (finalState rules ctx hist0 rand).upd i with
  | none => simp
  | some r'' =>
      rcases h3 i r'' hupd with ⟨r0, hr0, hmeta, -⟩
      rw [hget] at hr0
      injection hr0 with hr0
      subst hr0
      subst hmeta
      simp only [hupd, Option.getD_some, updateMeta, Option.getD_some]
      constructor
      · rw [jsOrNat_zero]
        omega
      · intro hle
        simpa using hle

/-- Witness for the amended C4 at a concrete call. -/
theorem c4_metadata_monotone_amended_witness :
    ∃ r', (processRules [c4Rule] c4CtxA histEmpty randZero).rulesAfter.get? 0 =
      some r' ∧
      c4Rule.activationCount.getD 0 ≤ r'.activationCount.getD 0 ∧
      (c4Rule.lastActivated.getD 0 ≤ jsOrNat c4CtxA.currentTurn 0 →
        c4Rule.lastActivated.getD 0 ≤ r'.lastActivated.getD 0) :=
  c4_metadata_monotone_amended [c4Rule] c4CtxA histEmpty randZero 0 c4Rule rfl

/-- C7: all engine and rule state mutated by a `processRules` call is tied
to successful activations.  Every activated entry carries the rule with
`lastActivated` set to the call's turn and an incremented
`activationCount`, and its history entry gains (only) appended copies of
the current turn; every id not among the activated ids keeps its history
entry unchanged, and every pool position whose rule id is not among the
activated ids keeps its rule unchanged. -/
theorem c7_mutation_only_on_activation (rules : List CustomRule)
    (ctx : ActivationContext) (hist0 : String → List Nat) (rand : Nat → Rat) :
    (∀ a ∈ (processRules rules ctx hist0 rand).result.activatedRules,
      a.rule.lastActivated = some (jsOrNat ctx.currentTurn 0) ∧
      (∃ c0, a.rule.activationCount = some (c0 + 1)) ∧
      ∃ k, 0 < k ∧
        (processRules rules ctx hist0 rand).histAfter a.rule.id =
          hist0 a.rule.id ++
            List.replicate k (jsOrNat ctx.currentTurn 0)) ∧
    (∀ id, id ∉ ((processRules rules ctx hist0 rand).result.activatedRules.map
        (fun a => a.rule.id)) →
      (processRules rules ctx hist0 rand).histAfter id = hist0 id) ∧
    (∀ i r, rules.get? i = some r →
      r.id ∉ ((processRules rules ctx hist0 rand).result.activatedRules.map
        (fun a => a.rule.id)) →
      (processRules rules ctx hist0 rand).rulesAfter.get? i = some r) := by
  obtain ⟨h1, h2, h3, h4⟩ := finalState_meta rules ctx hist0 rand
  have hids : ∀ id,
      id ∈ ((processRules rules ctx hist0 rand).result.activatedRules.map
        (fun a => a.rule.id)) ↔
      id ∈ idsOf (finalState rules ctx hist0 rand).activated := by
    intro id
    show id ∈ ((stableSortDesc (fun a => a.priority)
      (finalState rules ctx hist0 rand).activated).map
        (fun a => a.rule.id)) ↔ _
    simp only [idsOf, List.mem_map]
    constructor
    · rintro ⟨a, ha, rfl⟩
      exact ⟨a, mem_stableSortDesc.mp ha, rfl⟩
    · rintro ⟨a, ha, rfl⟩
      exact ⟨a, mem_stableSortDesc.mpr ha, rfl⟩
  refine ⟨?_, ?_, ?_⟩
  · intro a ha
    have hmem : a ∈ (finalState rules ctx hist0 rand).activated :=
      mem_stableSortDesc.mp ha
    rcases h4 a hmem with ⟨hlast, hcount⟩
    refine ⟨hlast, hcount, ?_⟩
    refine h2 a.rule.id ?_
    exact List.mem_map.mpr ⟨a, hmem, rfl⟩
  · intro id hid
    exact h1 id (fun hmem => hid ((hids id).mpr hmem))
  · intro i r hget hid
    rw [rulesAfter_get? rules ctx hist0 rand i, hget]
    cases hupd : (finalState rules ctx hist0 rand).upd i with
    | none => rfl
    | some r'' =>
        exfalso
        rcases h3 i r'' hupd with ⟨r0, hr0, hmeta, hmem⟩
        rw [hget] at hr0
        injection hr0 with hr0
        subst hr0
        refine hid ((hids r.id).mpr ?_)
        have : r''.id = r.id := by rw [hmeta]; rfl
        rw [← this]
        exact hmem

/-- A demo rule for the C7 witness. -/
def c7Rule : CustomRule :=
  { noRule with id := "a", alwaysActive := true, content := "yy" }

/-- A demo context for the C7 witness. -/
def c7Ctx : ActivationContext :=
  { emptyCtx with playerInput := "z", currentTurn := some 2 }

/-- Witness for C7 at a concrete call: an id that never activates keeps its
history entry. -/
theorem c7_mutation_only_on_activation_witness :
    (processRules [c7Rule] c7Ctx histEmpty randZero).histAfter "b" =
      histEmpty "b" :=
  (c7_mutation_only_on_activation [c7Rule] c7Ctx histEmpty randZero).2.1 "b"
    (by decide)

/-- The footer of a formatted block is never the empty string. -/
theorem footerStr_length_pos (n : Nat) (t : Int) :
    0 < (footerStr n t).length := by
  unfold footerStr
  simp only [String.length_append]
  have h : 0 < ("\n=== Tổng cộng: ").length := by decide
  omega

/-- C8: `formatForPrompt` returns the empty string exactly when no rule
activated, and for a result with at least one activated rule the returned
block ends with the footer encoding the activated-rule count and the total
token count. -/
theorem c8_format_footer (res : ActivationResult) :
    (formatForPrompt res = "" ↔ res.activatedRules = []) ∧
    (res.activatedRules ≠ [] →
      ∃ body, formatForPrompt res = body ++
        footerStr res.activatedRules.length res.totalTokens) := by
  cases h : res.activatedRules.isEmpty
  · have hne : res.activatedRules ≠ [] := by
      intro hnil
      rw [hnil] at h
      cases h
    constructor
    · constructor
      · intro he
        exfalso
        have heq : formatForPrompt res =
            (res.activatedRules.foldl (fun acc a => acc ++ ruleBlock a)
              "\n=== LUẬT LỆ TÙY CHỈNH ĐƯỢC KÍCH HOẠT ===\n") ++
              footerStr res.activatedRules.length res.totalTokens := by
          simp [formatForPrompt, h]
        rw [heq] at he
        have hlen := congrArg String.length he
        rw [String.length_append] at hlen
        have hpos := footerStr_length_pos res.activatedRules.length
          res.totalTokens
        simp at hlen
        omega
      · intro hnil
        exact absurd hnil hne
    · intro _
      refine ⟨res.activatedRules.foldl (fun acc a => acc ++ ruleBlock a)
        "\n=== LUẬT LỆ TÙY CHỈNH ĐƯỢC KÍCH HOẠT ===\n", ?_⟩
      simp [formatForPrompt, h]
  · have hnil : res.activatedRules = [] := List.isEmpty_iff.mp h
    constructor
    · constructor
      · intro _
        exact hnil
      · intro _
        simp [formatForPrompt, h]
    · intro hne
      exact absurd hnil hne

/-- A demo activation result for the C8 witness. -/
def c8Res : ActivationResult :=
  { activatedRules := [⟨c1R1, "AND_ANY: Matched 1 keywords", ["dragon"],
      3000, 10⟩],
    totalTokens := 3000, budgetExceeded := false, skippedRules := [] }

/-- Witness for C8 at a concrete nonempty result. -/
theorem c8_format_footer_witness :
    ∃ body, formatForPrompt c8Res = body ++
      footerStr c8Res.activatedRules.length c8Res.totalTokens :=
  (c8_format_footer c8Res).2 (by decide)
